import Mathlib

/-!
Verification of the p-kit repository: a shallow embedding of the
stochastic p-bit solver (`src/p_kit/solver/csd_solver.py`) and of the
circuit/module decorators (`src/p_kit/psl/decorators.py`), together with
theorems settling the specification claims.

Real numbers model the floating-point values of the source; `npSign`,
`npArctanh` model `np.sign` and `np.arctanh`; the stream of calls to
Python's `random()` is modelled by a function `u : ℕ → ℝ` giving the
value returned by the k-th call.
-/

namespace PKit

/-- A p-circuit as consumed by the solver: coupling matrix `J` (row
index first, as in `c.J[i]`) and bias vector `h`, over `n` p-bits. -/
structure PCircuit (n : ℕ) where
  J : Fin n → Fin n → ℝ
  h : Fin n → ℝ

/-- The hyperparameters of `CaSuDaSolver` (fields of the solver object
used by `solve`): step count `Nt`, time increment `dt`, gain `i0`, and
`expected_mean`. -/
structure CaSuDaSolver where
  Nt : ℕ
  dt : ℝ
  i0 : ℝ
  expected_mean : ℝ

/-- Translation of `np.sign` on a real scalar: -1, 0 or 1. -/
noncomputable def npSign (x : ℝ) : ℝ :=
  if x < 0 then -1 else if x = 0 then 0 else 1

/-- Translation of `np.arctanh`, by its defining formula
`arctanh x = log((1+x)/(1-x)) / 2`. -/
noncomputable def npArctanh (x : ℝ) : ℝ :=
  Real.log ((1 + x) / (1 - x)) / 2

/-- The input bias computed each step:
`I = [self.i0 * (np.dot(m, c.J[i]) + c.h[i]) for i in indices]`. -/
def inputCurrent (S : CaSuDaSolver) (c : PCircuit n) (m : Fin n → ℝ)
    (i : Fin n) : ℝ :=
  S.i0 * ((∑ j, m j * c.J i j) + c.h i)

/-- The per-step constant `threshold = np.arctanh(self.expected_mean)`.
The source recomputes it inside the loop; its value does not depend on
the loop variable, so it is a function of the solver alone. -/
noncomputable def threshold (S : CaSuDaSolver) : ℝ :=
  npArctanh S.expected_mean

/-- The survival map `x ↦ exp(-1 * dt * exp(-x))` underlying step (3):
the solver applies it at `x = m i * (I i + threshold)`. -/
noncomputable def survivalFn (dt x : ℝ) : ℝ :=
  Real.exp (-1 * dt * Real.exp (-x))

/-- Step (3) of the loop:
`s = [np.exp(-1 * self.dt * np.exp(-1 * m[i] * (I[i] + threshold))) for i in indices]`. -/
noncomputable def survival (S : CaSuDaSolver) (c : PCircuit n)
    (m : Fin n → ℝ) (i : Fin n) : ℝ :=
  Real.exp (-1 * S.dt * Real.exp (-1 * m i *
    (inputCurrent S c m i + threshold S)))

/-- The synchronous state update
`m = [m[i] * np.sign(s[i] - random()) for i in indices]`, with `v i`
the random draw consumed for unit `i`. -/
noncomputable def updateM (S : CaSuDaSolver) (c : PCircuit n)
    (m v : Fin n → ℝ) : Fin n → ℝ :=
  fun i => m i * npSign (survival S c m i - v i)

/-- The recorded energy
`E[run] = i0 * (np.dot(m, c.h) + np.multiply(0.5, np.dot(np.dot(m, c.J), m)))`,
evaluated on the post-update state. -/
def energy (S : CaSuDaSolver) (c : PCircuit n) (m : Fin n → ℝ) : ℝ :=
  S.i0 * ((∑ i, m i * c.h i) + 0.5 * (∑ j, (∑ i, m i * c.J i j) * m j))

/-- Initial state `m = [np.sign(0.5 - random()) for _ in indices]`:
unit `i` consumes the i-th value of the stream. -/
noncomputable def initM (u : ℕ → ℝ) (n : ℕ) : Fin n → ℝ :=
  fun i => npSign (0.5 - u i)

/-- The draws consumed by the update of step `t`: after `n` calls for
initialization and `n` calls for each earlier step, unit `i` of step `t`
consumes call number `n + t*n + i`. -/
def stepDraws (u : ℕ → ℝ) (n t : ℕ) : Fin n → ℝ :=
  fun i => u (n + t * n + i)

/-- The state held in `m` at the start of step `t` (so `mAt S c u 0` is
the freshly initialized state and `mAt S c u (t+1)` is the post-update
state of step `t`). -/
noncomputable def mAt (S : CaSuDaSolver) (c : PCircuit n) (u : ℕ → ℝ) :
    ℕ → (Fin n → ℝ)
  | 0 => initM u n
  | t + 1 => updateM S c (mAt S c u t) (stepDraws u n t)

/-- The three histories returned by `solve`: `all_I`, `all_m` and `E`,
in step order. -/
structure SolveResult (n : ℕ) where
  all_I : List (Fin n → ℝ)
  all_m : List (Fin n → ℝ)
  E : List ℝ

/-- The body of `for run in range(self.Nt)`, with `steps` iterations
remaining, current step index `t`, and current state `m`; each
iteration computes the currents from the pre-update state, updates the
state synchronously and records current, state and energy. -/
noncomputable def solveLoop (S : CaSuDaSolver) (c : PCircuit n)
    (u : ℕ → ℝ) : ℕ → ℕ → (Fin n → ℝ) → SolveResult n
  | 0, _, _ => ⟨[], [], []⟩
  | steps + 1, t, m =>
    let I := inputCurrent S c m
    let newm := updateM S c m (stepDraws u n t)
    let rest := solveLoop S c u steps (t + 1) newm
    ⟨I :: rest.all_I, newm :: rest.all_m, energy S c newm :: rest.E⟩

/-- `CaSuDaSolver.solve`: initialize the state from the first `n`
draws, then run `Nt` recorded steps. -/
noncomputable def solve (S : CaSuDaSolver) (c : PCircuit n)
    (u : ℕ → ℝ) : SolveResult n :=
  solveLoop S c u S.Nt 0 (initM u n)

lemma solveLoop_get (S : CaSuDaSolver) (c : PCircuit n) (u : ℕ → ℝ) :
    ∀ (steps t0 k : ℕ), k < steps →
      (solveLoop S c u steps t0 (mAt S c u t0)).all_I.get? k
          = some (inputCurrent S c (mAt S c u (t0 + k)))
      ∧ (solveLoop S c u steps t0 (mAt S c u t0)).all_m.get? k
          = some (mAt S c u (t0 + k + 1))
      ∧ (solveLoop S c u steps t0 (mAt S c u t0)).E.get? k
          = some (energy S c (mAt S c u (t0 + k + 1))) := by
  intro steps
  induction steps with
  | zero => intro t0 k hk; omega
  | succ steps ih =>
    intro t0 k hk
    have hstep : updateM S c (mAt S c u t0) (stepDraws u n t0)
        = mAt S c u (t0 + 1) := rfl
    cases k with
    | zero =>
      refine ⟨?_, ?_, ?_⟩ <;> simp [solveLoop, hstep]
    | succ k =>
      have hk' : k < steps := by omega
      have h1 := ih (t0 + 1) k hk'
      have e1 : t0 + 1 + k = t0 + (k + 1) := by omega
      rw [e1] at h1
      exact ⟨by simpa [solveLoop, hstep] using h1.1,
             by simpa [solveLoop, hstep] using h1.2.1,
             by simpa [solveLoop, hstep] using h1.2.2⟩

lemma solve_all_I_get (S : CaSuDaSolver) (c : PCircuit n) (u : ℕ → ℝ)
    (t : ℕ) (ht : t < S.Nt) :
    (solve S c u).all_I.get? t = some (inputCurrent S c (mAt S c u t)) := by
  have h := (solveLoop_get S c u S.Nt 0 t ht).1
  simpa [solve, mAt] using h

lemma solve_all_m_get (S : CaSuDaSolver) (c : PCircuit n) (u : ℕ → ℝ)
    (t : ℕ) (ht : t < S.Nt) :
    (solve S c u).all_m.get? t = some (mAt S c u (t + 1)) := by
  have h := (solveLoop_get S c u S.Nt 0 t ht).2.1
  simpa [solve, mAt] using h

lemma solve_E_get (S : CaSuDaSolver) (c : PCircuit n) (u : ℕ → ℝ)
    (t : ℕ) (ht : t < S.Nt) :
    (solve S c u).E.get? t = some (energy S c (mAt S c u (t + 1))) := by
  have h := (solveLoop_get S c u S.Nt 0 t ht).2.2
  simpa [solve, mAt] using h

lemma npSign_pos {x : ℝ} (hx : 0 < x) : npSign x = 1 := by
  simp [npSign, not_lt_of_gt hx, ne_of_gt hx]

lemma npSign_neg {x : ℝ} (hx : x < 0) : npSign x = -1 := by
  simp [npSign, hx]

lemma npSign_zero : npSign 0 = 0 := by
  simp [npSign]

lemma npSign_of_ne {x : ℝ} (hx : x ≠ 0) : npSign x = 1 ∨ npSign x = -1 := by
  rcases lt_trichotomy x 0 with h | h | h
  · exact Or.inr (npSign_neg h)
  · exact absurd h hx
  · exact Or.inl (npSign_pos h)

lemma energy_eq_double_sum (S : CaSuDaSolver) (c : PCircuit n)
    (m : Fin n → ℝ) :
    energy S c m
      = S.i0 * ((∑ i, m i * c.h i)
          + 0.5 * ∑ i, ∑ j, m i * c.J i j * m j) := by
  unfold energy
  have hs : (∑ j, (∑ i, m i * c.J i j) * m j)
      = ∑ i, ∑ j, m i * c.J i j * m j := by
    simp only [Finset.sum_mul]
    exact Finset.sum_comm
  rw [hs]

lemma draw_index_lt (n Nt t i : ℕ) (ht : t < Nt) (hi : i < n) :
    n + t * n + i < n + Nt * n := by
  have h1 : (t + 1) * n ≤ Nt * n := Nat.mul_le_mul ht (le_refl n)
  rw [Nat.succ_mul] at h1
  omega

lemma mAt_congr (S : CaSuDaSolver) (c : PCircuit n) (u u' : ℕ → ℝ)
    (hagree : ∀ k, k < n + S.Nt * n → u k = u' k) :
    ∀ t, t ≤ S.Nt → mAt S c u t = mAt S c u' t := by
  intro t
  induction t with
  | zero =>
    intro _
    funext i
    have hi := i.isLt
    simp [mAt, initM, hagree i.1 (by omega)]
  | succ t ih =>
    intro h
    have hdr : stepDraws u n t = stepDraws u' n t := by
      funext i
      exact hagree _ (draw_index_lt n S.Nt t i.1 (by omega) i.isLt)
    show updateM S c (mAt S c u t) (stepDraws u n t)
        = updateM S c (mAt S c u' t) (stepDraws u' n t)
    rw [ih (by omega), hdr]

lemma solveLoop_congr (S : CaSuDaSolver) (c : PCircuit n) (u u' : ℕ → ℝ)
    (hagree : ∀ k, k < n + S.Nt * n → u k = u' k) :
    ∀ (steps t0 : ℕ) (m : Fin n → ℝ), t0 + steps ≤ S.Nt →
      solveLoop S c u steps t0 m = solveLoop S c u' steps t0 m := by
  intro steps
  induction steps with
  | zero => intro t0 m _; rfl
  | succ steps ih =>
    intro t0 m hle
    have hdr : stepDraws u n t0 = stepDraws u' n t0 := by
      funext i
      exact hagree _ (draw_index_lt n S.Nt t0 i.1 (by omega) i.isLt)
    simp only [solveLoop]
    rw [hdr, ih (t0 + 1) (updateM S c m (stepDraws u' n t0)) (by omega)]

/-- Concrete inputs used by witnesses: a solver with one step,
unit time increment, unit gain and expected mean zero. -/
def wSolver : CaSuDaSolver := ⟨1, 1, 1, 0⟩

/-- A one-unit circuit with zero coupling and zero bias. -/
def wCircuit : PCircuit 1 := ⟨fun _ _ => 0, fun _ => 0⟩

/-- The constant-zero random stream. -/
def wStream : ℕ → ℝ := fun _ => 0

/-- A stream agreeing with `wStream` on the consumed prefix of a
one-unit one-step run and differing beyond it. -/
noncomputable def wStreamTail : ℕ → ℝ := fun k => if k < 2 then 0 else 5

/-- C1: for every circuit and every step t in 0..Nt-1, the solver
computes the input current of unit i as i0 * (Σ_j m_j * J[i][j] + h_i)
where m is the pre-update spin vector of step t — one synchronous
snapshot shared by all units — and records this vector as I_history[t]. -/
theorem solve_records_synchronous_currents (S : CaSuDaSolver)
    (c : PCircuit n) (u : ℕ → ℝ) (t : ℕ) (ht : t < S.Nt) :
    (solve S c u).all_I.get? t
      = some (fun i => S.i0 * ((∑ j, mAt S c u t j * c.J i j) + c.h i)) :=
  solve_all_I_get S c u t ht

/-- Witness for C1 at a concrete one-unit circuit. -/
theorem solve_records_synchronous_currents_witness :
    0 < wSolver.Nt ∧
    (solve wSolver wCircuit wStream).all_I.get? 0
      = some (fun i => wSolver.i0 *
          ((∑ j, mAt wSolver wCircuit wStream 0 j * wCircuit.J i j)
            + wCircuit.h i)) :=
  ⟨by decide,
   solve_records_synchronous_currents wSolver wCircuit wStream 0 (by decide)⟩

/-- C4: for every step t, the recorded energy is
i0 * (Σ_i m_i h_i + 0.5 Σ_i Σ_j m_i J[i][j] m_j) evaluated on the
post-update spin vector of step t (the vector recorded as
m_history[t]); and for a 1-unit circuit with J = [[0]] and h = [c0],
E_t = i0 * m_t * c0 with m_t the recorded m_history[t]. -/
theorem solve_energy_post_update (S : CaSuDaSolver) (u : ℕ → ℝ)
    (t : ℕ) (ht : t < S.Nt) :
    (∀ (n : ℕ) (c : PCircuit n),
      (solve S c u).E.get? t
          = some (S.i0 * ((∑ i, mAt S c u (t + 1) i * c.h i)
              + 0.5 * ∑ i, ∑ j, mAt S c u (t + 1) i * c.J i j
                  * mAt S c u (t + 1) j))
        ∧ (solve S c u).all_m.get? t = some (mAt S c u (t + 1)))
    ∧ ∀ (c0 : ℝ) (c1 : PCircuit 1),
        c1.J = (fun _ _ => 0) → c1.h = (fun _ => c0) →
        (solve S c1 u).E.get? t
          = ((solve S c1 u).all_m.get? t).map (fun mh => S.i0 * mh 0 * c0) := by
  constructor
  · intro n c
    refine ⟨?_, solve_all_m_get S c u t ht⟩
    rw [solve_E_get S c u t ht, energy_eq_double_sum]
  · intro c0 c1 hJ hh
    rw [solve_E_get S c1 u t ht, solve_all_m_get S c1 u t ht]
    simp only [Option.map_some']
    congr 1
    rw [energy_eq_double_sum, hJ, hh]
    simp only [Fin.sum_univ_one]
    ring

/-- Witness for C4 at concrete inputs. -/
theorem solve_energy_post_update_witness :
    0 < wSolver.Nt ∧
    ((∀ (n : ℕ) (c : PCircuit n),
      (solve wSolver c wStream).E.get? 0
          = some (wSolver.i0 * ((∑ i, mAt wSolver c wStream 1 i * c.h i)
              + 0.5 * ∑ i, ∑ j, mAt wSolver c wStream 1 i * c.J i j
                  * mAt wSolver c wStream 1 j))
        ∧ (solve wSolver c wStream).all_m.get? 0
            = some (mAt wSolver c wStream 1))
    ∧ ∀ (c0 : ℝ) (c1 : PCircuit 1),
        c1.J = (fun _ _ => 0) → c1.h = (fun _ => c0) →
        (solve wSolver c1 wStream).E.get? 0
          = ((solve wSolver c1 wStream).all_m.get? 0).map
              (fun mh => wSolver.i0 * mh 0 * c0)) :=
  ⟨by decide, solve_energy_post_update wSolver wStream 0 (by decide)⟩

/-- C6: solve is deterministic in the random stream — two runs on the
same circuit consuming the same draws produce identical histories; the
stream is consumed only at the n initialization positions and the n
positions of each of the Nt steps (n + Nt*n values in total, unit
index varying fastest), so any two streams agreeing there give
identical I_history, m_history and E_history. -/
theorem solve_deterministic_in_stream (S : CaSuDaSolver)
    (c : PCircuit n) (u u' : ℕ → ℝ)
    (hagree : ∀ k, k < n + S.Nt * n → u k = u' k) :
    solve S c u = solve S c u' := by
  have hinit : initM u n = initM u' n := by
    funext i
    have hi := i.isLt
    simp [initM, hagree i.1 (by omega)]
  unfold solve
  rw [hinit, solveLoop_congr S c u u' hagree S.Nt 0 (initM u' n) (by omega)]

/-- Witness for C6: two concretely different streams agreeing on the
two consumed draws of a one-unit one-step run yield equal results. -/
theorem solve_deterministic_in_stream_witness :
    (∀ k, k < 1 + wSolver.Nt * 1 → wStream k = wStreamTail k) ∧
    solve wSolver wCircuit wStream = solve wSolver wCircuit wStreamTail :=
  ⟨by intro k hk
      have hk2 : k < 2 := by simpa [wSolver] using hk
      simp [wStream, wStreamTail, hk2],
   solve_deterministic_in_stream wSolver wCircuit wStream wStreamTail
     (by intro k hk
         have hk2 : k < 2 := by simpa [wSolver] using hk
         simp [wStream, wStreamTail, hk2])⟩

lemma survival_eq_survivalFn (S : CaSuDaSolver) (c : PCircuit n)
    (m : Fin n → ℝ) (i : Fin n) :
    survival S c m i
      = survivalFn S.dt (m i * (inputCurrent S c m i + threshold S)) := by
  have harg : (-1 : ℝ) * m i * (inputCurrent S c m i + threshold S)
      = -(m i * (inputCurrent S c m i + threshold S)) := by ring
  rw [survival, survivalFn, harg]

lemma survivalFn_mem_Ioc {dt : ℝ} (hdt : 0 < dt) (x : ℝ) :
    survivalFn dt x ∈ Set.Ioc (0 : ℝ) 1 := by
  constructor
  · exact Real.exp_pos _
  · rw [survivalFn, Real.exp_le_one_iff]
    have hpos := Real.exp_pos (-x)
    nlinarith

lemma survivalFn_tendsto_atBot {dt : ℝ} (hdt : 0 < dt) :
    Filter.Tendsto (survivalFn dt) Filter.atBot (nhds 0) := by
  have h1 : Filter.Tendsto (fun x : ℝ => Real.exp (-x))
      Filter.atBot Filter.atTop :=
    Real.tendsto_exp_atTop.comp Filter.tendsto_neg_atBot_atTop
  have hneg : (-1 : ℝ) * dt < 0 := by nlinarith
  have h2 : Filter.Tendsto (fun x : ℝ => -1 * dt * Real.exp (-x))
      Filter.atBot Filter.atBot :=
    (Filter.tendsto_const_mul_atBot_of_neg hneg).2 h1
  exact Real.tendsto_exp_atBot.comp h2

lemma survivalFn_tendsto_atTop (dt : ℝ) :
    Filter.Tendsto (survivalFn dt) Filter.atTop (nhds 1) := by
  have h1 : Filter.Tendsto (fun x : ℝ => Real.exp (-x))
      Filter.atTop (nhds 0) :=
    Real.tendsto_exp_atBot.comp Filter.tendsto_neg_atTop_atBot
  have h2 : Filter.Tendsto (fun x : ℝ => -1 * dt * Real.exp (-x))
      Filter.atTop (nhds 0) := by
    have h3 := h1.const_mul (-1 * dt)
    simpa using h3
  have h4 := (Real.continuous_exp.tendsto 0).comp h2
  have hfun : (Real.exp ∘ fun x : ℝ => -1 * dt * Real.exp (-x))
      = survivalFn dt := by
    funext x; rfl
  rw [hfun] at h4
  simpa using h4

lemma tanh_npArctanh {y : ℝ} (hy1 : -1 < y) (hy2 : y < 1) :
    Real.tanh (npArctanh y) = y := by
  have hden : (0 : ℝ) < 1 - y := by linarith
  have hnum : (0 : ℝ) < 1 + y := by linarith
  have hu : (0 : ℝ) < (1 + y) / (1 - y) := div_pos hnum hden
  have hzz : npArctanh y + npArctanh y = Real.log ((1 + y) / (1 - y)) := by
    rw [npArctanh]; ring
  have hE2 : Real.exp (npArctanh y) * Real.exp (npArctanh y)
      = (1 + y) / (1 - y) := by
    rw [← Real.exp_add, hzz, Real.exp_log hu]
  have hE3 : Real.exp (npArctanh y) * Real.exp (npArctanh y) * (1 - y)
      = 1 + y := by
    rw [hE2]; field_simp
  have hEpos := Real.exp_pos (npArctanh y)
  have hsum : Real.exp (npArctanh y) + (Real.exp (npArctanh y))⁻¹ ≠ 0 := by
    have := inv_pos.mpr hEpos
    positivity
  rw [Real.tanh_eq_sinh_div_cosh, Real.sinh_eq, Real.cosh_eq, Real.exp_neg]
  rw [div_div_div_comm, div_self (by norm_num : (2:ℝ) ≠ 0), div_one]
  rw [div_eq_iff hsum]
  field_simp
  nlinarith [hE3]

/-- C2: for every unit at every step the solver computes the survival
value s_i = exp(-dt * exp(-m_i * (I_i + threshold))) where threshold is
the arctanh of expectedMean (a fixed constant of the run: tanh of the
threshold recovers expectedMean); for 0 < dt and any finite inputs the
value lies in the half-open interval (0,1], and the survival map tends
to 0 as its argument m_i*(I_i+threshold) goes to -∞ and to 1 as it
goes to +∞. -/
theorem survival_formula_range_limits (S : CaSuDaSolver)
    (c : PCircuit n) (m : Fin n → ℝ) (i : Fin n) (hdt : 0 < S.dt)
    (hm1 : -1 < S.expected_mean) (hm2 : S.expected_mean < 1) :
    survival S c m i
        = survivalFn S.dt (m i * (inputCurrent S c m i + threshold S))
    ∧ Real.tanh (threshold S) = S.expected_mean
    ∧ survival S c m i ∈ Set.Ioc (0 : ℝ) 1
    ∧ Filter.Tendsto (survivalFn S.dt) Filter.atBot (nhds 0)
    ∧ Filter.Tendsto (survivalFn S.dt) Filter.atTop (nhds 1) := by
  refine ⟨survival_eq_survivalFn S c m i, ?_, ?_,
    survivalFn_tendsto_atBot hdt, survivalFn_tendsto_atTop S.dt⟩
  · exact tanh_npArctanh hm1 hm2
  · rw [survival_eq_survivalFn S c m i]
    exact survivalFn_mem_Ioc hdt _

/-- Witness for C2 at a concrete solver, circuit, state and unit. -/
theorem survival_formula_range_limits_witness :
    ((0 : ℝ) < wSolver.dt ∧ (-1 : ℝ) < wSolver.expected_mean
      ∧ wSolver.expected_mean < 1)
    ∧ (survival wSolver wCircuit (fun _ => 1) 0
        = survivalFn wSolver.dt ((fun _ => (1:ℝ)) 0 *
            (inputCurrent wSolver wCircuit (fun _ => 1) 0
              + threshold wSolver))
      ∧ Real.tanh (threshold wSolver) = wSolver.expected_mean
      ∧ survival wSolver wCircuit (fun _ => 1) 0 ∈ Set.Ioc (0 : ℝ) 1
      ∧ Filter.Tendsto (survivalFn wSolver.dt) Filter.atBot (nhds 0)
      ∧ Filter.Tendsto (survivalFn wSolver.dt) Filter.atTop (nhds 1)) :=
  ⟨⟨by norm_num [wSolver], by norm_num [wSolver], by norm_num [wSolver]⟩,
   survival_formula_range_limits wSolver wCircuit (fun _ => 1) 0
     (by norm_num [wSolver]) (by norm_num [wSolver]) (by norm_num [wSolver])⟩

/-- A solver with one step, unit time increment, zero gain and
expected mean zero, used for tie counterexamples. -/
def cSolver : CaSuDaSolver := ⟨1, 1, 0, 0⟩

/-- A solver with one step, zero time increment, zero gain and
expected mean zero; with dt = 0 every survival value is exactly 1. -/
def zSolver : CaSuDaSolver := ⟨1, 0, 0, 0⟩

/-- The all-ones state of a one-unit circuit. -/
def mOne : Fin 1 → ℝ := fun _ => 1

/-- The all-zero draw vector of a one-unit circuit. -/
def vZero : Fin 1 → ℝ := fun _ => 0

lemma cSolver_survival :
    survival cSolver wCircuit mOne 0 = Real.exp (-1) := by
  norm_num [survival, cSolver, wCircuit, mOne, inputCurrent, threshold,
    npArctanh]

lemma zSolver_survival (m : Fin 1 → ℝ) (i : Fin 1) :
    survival zSolver wCircuit m i = 1 := by
  norm_num [survival, zSolver]

/-- Counterexample to C3 as stated: at a concrete solver and one-unit
circuit with current spin +1, the draw exp(-1) lies inside (0,1) and
exactly equals the survival value; it does not exceed the survival
value, yet the updated spin is 0 = 1 * sign(0) — the current sign +1
is not preserved (and the spin does not flip to -1 either). -/
theorem update_tie_neither_flips_nor_preserves :
    (0 : ℝ) < Real.exp (-1)
    ∧ Real.exp (-1) < 1
    ∧ survival cSolver wCircuit mOne 0 = Real.exp (-1)
    ∧ ¬ (Real.exp (-1) > survival cSolver wCircuit mOne 0)
    ∧ mOne 0 = 1
    ∧ updateM cSolver wCircuit mOne (fun _ => Real.exp (-1)) 0 = 0
    ∧ (0 : ℝ) ≠ 1 ∧ (0 : ℝ) ≠ -1 := by
  have hs := cSolver_survival
  refine ⟨Real.exp_pos _, ?_, hs, ?_, rfl, ?_, by norm_num, by norm_num⟩
  · rw [Real.exp_lt_one_iff]; norm_num
  · rw [hs]; exact lt_irrefl _
  · simp only [updateM, hs, mOne, sub_self, npSign_zero, mul_zero]

/-- C3 amended: at every step each unit i updates its spin to
m_i * sign(s_i - v_i), all units reading the same pre-step m vector;
provided m_i is nonzero and the draw v_i differs from s_i, the spin
flips sign exactly when v_i > s_i and keeps its current value exactly
when v_i < s_i (at the measure-zero tie v_i = s_i the spin becomes 0
instead). -/
theorem update_flip_characterization (S : CaSuDaSolver)
    (c : PCircuit n) (m v : Fin n → ℝ) (i : Fin n) (hm : m i ≠ 0)
    (hne : v i ≠ survival S c m i) :
    updateM S c m v i = m i * npSign (survival S c m i - v i)
    ∧ (updateM S c m v i = -(m i) ↔ v i > survival S c m i)
    ∧ (updateM S c m v i = m i ↔ v i < survival S c m i) := by
  rcases lt_trichotomy (v i) (survival S c m i) with h | h | h
  · have hs : npSign (survival S c m i - v i) = 1 := npSign_pos (by linarith)
    have hupd : updateM S c m v i = m i := by
      simp only [updateM, hs, mul_one]
    refine ⟨rfl, ?_, ?_⟩
    · rw [hupd]
      constructor
      · intro he; exfalso; apply hm; linarith
      · intro hgt; linarith
    · exact ⟨fun _ => h, fun _ => hupd⟩
  · exact absurd h hne
  · have hs : npSign (survival S c m i - v i) = -1 := npSign_neg (by linarith)
    have hupd : updateM S c m v i = -(m i) := by
      simp only [updateM, hs, mul_neg, mul_one]
    refine ⟨rfl, ⟨fun _ => h, fun _ => hupd⟩, ?_⟩
    · rw [hupd]
      constructor
      · intro he; exfalso; apply hm; linarith
      · intro hlt; linarith

/-- Witness for the amended C3 at a concrete solver, state and draw. -/
theorem update_flip_characterization_witness :
    (mOne 0 ≠ 0 ∧ vZero 0 ≠ survival zSolver wCircuit mOne 0)
    ∧ (updateM zSolver wCircuit mOne vZero 0
        = mOne 0 * npSign (survival zSolver wCircuit mOne 0 - vZero 0)
      ∧ (updateM zSolver wCircuit mOne vZero 0 = -(mOne 0)
          ↔ vZero 0 > survival zSolver wCircuit mOne 0)
      ∧ (updateM zSolver wCircuit mOne vZero 0 = mOne 0
          ↔ vZero 0 < survival zSolver wCircuit mOne 0)) := by
  have h1 : mOne 0 ≠ 0 := by norm_num [mOne]
  have h2 : vZero 0 ≠ survival zSolver wCircuit mOne 0 := by
    rw [zSolver_survival]; norm_num [vZero]
  exact ⟨⟨h1, h2⟩,
    update_flip_characterization zSolver wCircuit mOne vZero 0 h1 h2⟩

/-- The random stream returning exactly 0.5 on every call; each value
lies in [0,1), the range of Python's random(). -/
noncomputable def halfStream : ℕ → ℝ := fun _ => 0.5

/-- Counterexample to C5 as stated: with every draw equal to 0.5 — an
admissible value in [0,1) — the single unit is initialized to
sign(0.5 - 0.5) = 0 and the entry recorded in m_history[0] is 0, which
is neither +1 nor -1. -/
theorem mhistory_entry_zero :
    initM halfStream 1 0 = 0
    ∧ ((solve wSolver wCircuit halfStream).all_m.get? 0).map
        (fun mh => mh 0) = some 0
    ∧ (0 : ℝ) ≠ 1 ∧ (0 : ℝ) ≠ -1 := by
  have hinit : initM halfStream 1 0 = 0 := by
    simp [initM, halfStream, npSign_zero]
  refine ⟨hinit, ?_, by norm_num, by norm_num⟩
  rw [solve_all_m_get wSolver wCircuit halfStream 0 (by decide)]
  simp only [Option.map_some']
  have h0 : mAt wSolver wCircuit halfStream 0 0 = 0 := hinit
  refine congrArg some ?_
  show updateM wSolver wCircuit (mAt wSolver wCircuit halfStream 0)
      (stepDraws halfStream 1 0) 0 = 0
  simp only [updateM, h0, zero_mul]

/-- C5 amended: provided no initialization draw equals 0.5 exactly and
no step draw exactly equals the survival value it is compared with
(the np.sign(0) = 0 tie cases), every entry of every vector recorded
in m_history is exactly +1 or -1. -/
theorem mhistory_entries_pm_one (S : CaSuDaSolver) (c : PCircuit n)
    (u : ℕ → ℝ) (hinit : ∀ i : Fin n, u i ≠ 0.5)
    (hstep : ∀ t, t < S.Nt → ∀ i : Fin n,
      stepDraws u n t i ≠ survival S c (mAt S c u t) i)
    (t : ℕ) (ht : t < S.Nt) (mh : Fin n → ℝ)
    (hmh : (solve S c u).all_m.get? t = some mh) (i : Fin n) :
    mh i = 1 ∨ mh i = -1 := by
  have key : ∀ s, s ≤ S.Nt → ∀ j : Fin n,
      mAt S c u s j = 1 ∨ mAt S c u s j = -1 := by
    intro s
    induction s with
    | zero =>
      intro _ j
      have hne : (0.5 : ℝ) - u j ≠ 0 := by
        intro h0; apply hinit j; linarith
      exact npSign_of_ne hne
    | succ s ih =>
      intro hs j
      have hs' : s < S.Nt := by omega
      have hdiff : survival S c (mAt S c u s) j - stepDraws u n s j ≠ 0 := by
        intro h0
        exact hstep s hs' j (by linarith)
      have hsgn := npSign_of_ne hdiff
      have hprev := ih (by omega) j
      show mAt S c u s j
          * npSign (survival S c (mAt S c u s) j - stepDraws u n s j) = 1
        ∨ mAt S c u s j
          * npSign (survival S c (mAt S c u s) j - stepDraws u n s j) = -1
      rcases hprev with h | h <;> rcases hsgn with h2 | h2 <;>
        rw [h, h2] <;> norm_num
  have hrec := solve_all_m_get S c u t ht
  have hsome : some mh = some (mAt S c u (t + 1)) := hmh.symm.trans hrec
  have heq : mh = mAt S c u (t + 1) := Option.some.inj hsome
  rw [heq]
  exact key (t + 1) (by omega) i

/-- Witness for the amended C5 at a concrete solver and stream. -/
theorem mhistory_entries_pm_one_witness :
    ((∀ i : Fin 1, wStream i ≠ 0.5)
      ∧ (∀ t, t < zSolver.Nt → ∀ i : Fin 1,
          stepDraws wStream 1 t i
            ≠ survival zSolver wCircuit (mAt zSolver wCircuit wStream t) i)
      ∧ 0 < zSolver.Nt)
    ∧ (mAt zSolver wCircuit wStream 1 0 = 1
        ∨ mAt zSolver wCircuit wStream 1 0 = -1) := by
  have h1 : ∀ i : Fin 1, wStream i ≠ 0.5 := by
    intro i; norm_num [wStream]
  have h2 : ∀ t, t < zSolver.Nt → ∀ i : Fin 1,
      stepDraws wStream 1 t i
        ≠ survival zSolver wCircuit (mAt zSolver wCircuit wStream t) i := by
    intro t ht i
    rw [zSolver_survival]
    norm_num [stepDraws, wStream]
  exact ⟨⟨h1, h2, by decide⟩,
    mhistory_entries_pm_one zSolver wCircuit wStream h1 h2 0 (by decide)
      (mAt zSolver wCircuit wStream 1)
      (solve_all_m_get zSolver wCircuit wStream 0 (by decide)) 0⟩

/-! Embedding of `src/p_kit/psl/decorators.py`. A numpy array is
abstracted to its shape together with its entries; a Python attribute
value is abstracted to the capabilities the decorators inspect. -/

/-- A numpy array: its shape tuple and its entries (indexed by a
multi-index). -/
structure NpArr where
  shape : List ℕ
  entry : List ℕ → ℝ

/-- np.zeros of a given shape. -/
def npZeros (s : List ℕ) : NpArr :=
  ⟨s, fun _ => 0⟩

/-- The failures raised by the decorators (ValueError in the source),
under the taxonomy names of the specification; each carries the data
interpolated into the source's message. -/
inductive PslError where
  | shapeMismatch (which : String)
  | portCountMismatch (clsName : String) (found : List String)
deriving DecidableEq

/-- The J validation in `pcircuit.__new__`: a class-supplied J must
have shape exactly (n_pbits, n_pbits). -/
def checkJ (nPbits : ℕ) (clsJ : Option NpArr) (res : NpArr × NpArr) :
    Except PslError (NpArr × NpArr) :=
  match clsJ with
  | none => Except.ok res
  | some a =>
    if a.shape = [nPbits, nPbits] then Except.ok res
    else Except.error (PslError.shapeMismatch "J")

/-- `pcircuit.__new__`: materialize `instance.h` and `instance.J`,
falling back to np.zeros((n,1)) and np.zeros((n,n)) when the class
supplies none, then validate the supplied class attributes — h must
have shape exactly (n,1) (checked first), then J must have shape
exactly (n,n); a violation raises the shape error. Returns the pair
(instance.h, instance.J). -/
def pcircuitNew (nPbits : ℕ) (clsH clsJ : Option NpArr) :
    Except PslError (NpArr × NpArr) :=
  let hArr := clsH.getD (npZeros [nPbits, 1])
  let JArr := clsJ.getD (npZeros [nPbits, nPbits])
  match clsH with
  | none => checkJ nPbits clsJ (hArr, JArr)
  | some a =>
    if a.shape = [nPbits, 1] then checkJ nPbits clsJ (hArr, JArr)
    else Except.error (PslError.shapeMismatch "h")

/-- The port-attribute scan of the pcircuit decorator: the class body
is an ordered association of attribute names to whether the bound
value is a Port; the scan keeps the names bound to Ports, in
declaration order. -/
def portAttrs (attrs : List (String × Bool)) : List String :=
  (attrs.filter (fun a => a.2)).map (fun a => a.1)

/-- `pcircuit(n_pbits)`'s decorator applied to a class: with exactly
n_pbits declared Port attributes, each port name is paired with the
index of its position in the declaration sequence; otherwise the
decorator raises, naming the offending class and the ports found. -/
def pcircuitDecorate (nPbits : ℕ) (clsName : String)
    (attrs : List (String × Bool)) :
    Except PslError (List (String × ℕ)) :=
  let ports := portAttrs attrs
  if ports.length = nPbits then
    Except.ok (ports.enum.map (fun p => (p.2, p.1)))
  else
    Except.error (PslError.portCountMismatch clsName ports)

/-- A Python attribute value abstracted to the capabilities the module
decorator inspects: whether it exposes n_pbits, J and h attributes. -/
structure PyAttrVal where
  hasNPbits : Bool
  hasJ : Bool
  hasH : Bool
deriving DecidableEq

/-- The registration loop of `module.__init__` over `vars(self)`:
every instance attribute whose value has an n_pbits attribute is
registered into the context (modelled, per the specification of
`ModuleContext.register_instance`, as appending to the registration
list), in attribute order. -/
def registerLoop : List (String × PyAttrVal) → List PyAttrVal → List PyAttrVal
  | [], ctx => ctx
  | (_, v) :: rest, ctx =>
    registerLoop rest (if v.hasNPbits then ctx ++ [v] else ctx)

/-- The registrations contributed by constructing a single module
instance with the given instance attributes, into an empty context. -/
def registeredOf (vars : List (String × PyAttrVal)) : List PyAttrVal :=
  registerLoop vars []

/-- The shared module context accumulated by constructing, in order,
the given instances of one decorated class: the decorator creates one
ModuleContext when the class is decorated, and every instance
construction registers into that same object. -/
def contextAfter (instances : List (List (String × PyAttrVal))) :
    List PyAttrVal :=
  instances.foldl (fun ctx vars => registerLoop vars ctx) []

lemma registerLoop_cons (nm : String) (v : PyAttrVal)
    (rest : List (String × PyAttrVal)) (ctx : List PyAttrVal) :
    registerLoop ((nm, v) :: rest) ctx
      = registerLoop rest (if v.hasNPbits then ctx ++ [v] else ctx) := rfl

lemma registerLoop_append (vars : List (String × PyAttrVal)) :
    ∀ ctx, registerLoop vars ctx = ctx ++ registeredOf vars := by
  induction vars with
  | nil => intro ctx; simp [registerLoop, registeredOf]
  | cons p rest ih =>
    intro ctx
    cases p with
    | mk nm v =>
      have h2 : registeredOf ((nm, v) :: rest)
          = registerLoop rest (if v.hasNPbits then [v] else []) := by
        rw [registeredOf, registerLoop_cons]
        simp
      rw [registerLoop_cons, h2, ih, ih]
      by_cases hv : v.hasNPbits <;> simp [hv, List.append_assoc]

lemma contextAfter_fold (instances : List (List (String × PyAttrVal))) :
    ∀ ctx, instances.foldl (fun ctx vars => registerLoop vars ctx) ctx
      = ctx ++ (instances.map registeredOf).flatten := by
  induction instances with
  | nil => intro ctx; simp
  | cons x xs ih =>
    intro ctx
    simp only [List.foldl_cons, List.map_cons, List.flatten_cons]
    rw [registerLoop_append, ih, List.append_assoc]

lemma registeredOf_cons (nm : String) (v : PyAttrVal)
    (rest : List (String × PyAttrVal)) :
    registeredOf ((nm, v) :: rest)
      = (if v.hasNPbits then [v] else []) ++ registeredOf rest := by
  rw [registeredOf, registerLoop_cons, registerLoop_append]
  by_cases hv : v.hasNPbits <;> simp [hv]

lemma registeredOf_eq_filter (vars : List (String × PyAttrVal)) :
    registeredOf vars
      = (vars.map (fun a => a.2)).filter (fun v => v.hasNPbits) := by
  induction vars with
  | nil => rfl
  | cons p rest ih =>
    cases p with
    | mk nm v =>
      by_cases hv : v.hasNPbits <;>
        simp [registeredOf_cons, List.filter_cons, hv, ih]

/-- Counterexample to C7 as stated: for n = 1, a supplied h of shape
(1,) — a vector of length n — together with a correctly shaped (1,1)
J is rejected with the h shape error instead of being accepted. -/
theorem h_vector_shape_rejected :
    (NpArr.mk [1] (fun _ => 0)).shape = [1]
    ∧ pcircuitNew 1 (some (NpArr.mk [1] (fun _ => 0)))
        (some (npZeros [1, 1]))
      = Except.error (PslError.shapeMismatch "h") :=
  ⟨rfl, rfl⟩

/-- C7 amended: pcircuit construction defaults an unsupplied h or J to
np.zeros((n,1)) and np.zeros((n,n)); it succeeds exactly when every
supplied h has shape (n,1) — a length-n vector of shape (n,) is
rejected — and every supplied J has shape (n,n); a bad h fails with
the h shape error, a bad J (with acceptable h) fails with the J shape
error, both at construction time, and on success the supplied arrays
are installed unchanged. -/
theorem pcircuitNew_shape_checks (nPbits : ℕ) (clsH clsJ : Option NpArr) :
    pcircuitNew nPbits none none
        = Except.ok (npZeros [nPbits, 1], npZeros [nPbits, nPbits])
    ∧ ((∃ p, pcircuitNew nPbits clsH clsJ = Except.ok p)
        ↔ (∀ a ∈ clsH, a.shape = [nPbits, 1])
          ∧ (∀ b ∈ clsJ, b.shape = [nPbits, nPbits]))
    ∧ (∀ a ∈ clsH, a.shape ≠ [nPbits, 1] →
        pcircuitNew nPbits clsH clsJ
          = Except.error (PslError.shapeMismatch "h"))
    ∧ (∀ b ∈ clsJ, b.shape ≠ [nPbits, nPbits] →
        (∀ a ∈ clsH, a.shape = [nPbits, 1]) →
        pcircuitNew nPbits clsH clsJ
          = Except.error (PslError.shapeMismatch "J"))
    ∧ (∀ a ∈ clsH, ∀ b ∈ clsJ, a.shape = [nPbits, 1] →
        b.shape = [nPbits, nPbits] →
        pcircuitNew nPbits clsH clsJ = Except.ok (a, b)) := by
  refine ⟨rfl, ?_, ?_, ?_, ?_⟩
  · cases clsH with
    | none =>
      cases clsJ with
      | none => simp [pcircuitNew, checkJ]
      | some b =>
        by_cases hb : b.shape = [nPbits, nPbits] <;>
          simp [pcircuitNew, checkJ, hb]
    | some a =>
      by_cases ha : a.shape = [nPbits, 1]
      · cases clsJ with
        | none => simp [pcircuitNew, checkJ, ha]
        | some b =>
          by_cases hb : b.shape = [nPbits, nPbits] <;>
            simp [pcircuitNew, checkJ, ha, hb]
      · simp [pcircuitNew, ha]
  · cases clsH with
    | none => intro a haIn; simp at haIn
    | some a0 =>
      intro a haIn hane
      have he : a0 = a := by simpa using haIn
      subst he
      simp [pcircuitNew, hane]
  · cases clsJ with
    | none => intro b hbIn; simp at hbIn
    | some b0 =>
      intro b hbIn hbne hH
      have he : b0 = b := by simpa using hbIn
      subst he
      cases clsH with
      | none => simp [pcircuitNew, checkJ, hbne]
      | some a0 =>
        have ha0 : a0.shape = [nPbits, 1] := hH a0 (by simp)
        simp [pcircuitNew, checkJ, ha0, hbne]
  · cases clsH with
    | none => intro a haIn; simp at haIn
    | some a0 =>
      intro a haIn
      have hea : a0 = a := by simpa using haIn
      subst hea
      cases clsJ with
      | none => intro b hbIn; simp at hbIn
      | some b0 =>
        intro b hbIn ha hb
        have heb : b0 = b := by simpa using hbIn
        subst heb
        simp [pcircuitNew, checkJ, ha, hb]

/-- Witness for the amended C7: a correctly shaped supplied pair is
accepted and returned unchanged. -/
theorem pcircuitNew_shape_checks_witness :
    pcircuitNew 1 (some (npZeros [1, 1])) (some (npZeros [1, 1]))
      = Except.ok (npZeros [1, 1], npZeros [1, 1]) :=
  (pcircuitNew_shape_checks 1 (some (npZeros [1, 1]))
      (some (npZeros [1, 1]))).2.2.2.2
    (npZeros [1, 1]) (by simp) (npZeros [1, 1]) (by simp) rfl rfl

/-- C8: decorating a circuit class whose number of declared Port
attributes differs from n_pbits always fails at declaration time with
the port-count error naming the offending class and the port names
actually found; with exactly n_pbits ports the decoration succeeds and
the port at position k of the declaration sequence is assigned
index k. -/
theorem pcircuitDecorate_port_count (nPbits : ℕ) (clsName : String)
    (attrs : List (String × Bool)) :
    ((portAttrs attrs).length ≠ nPbits →
      pcircuitDecorate nPbits clsName attrs
        = Except.error
            (PslError.portCountMismatch clsName (portAttrs attrs)))
    ∧ ((portAttrs attrs).length = nPbits →
      ∃ l, pcircuitDecorate nPbits clsName attrs = Except.ok l
        ∧ l.length = nPbits
        ∧ ∀ k, k < nPbits →
            l.get? k
              = ((portAttrs attrs).get? k).map (fun nm => (nm, k))) := by
  constructor
  · intro hne
    simp [pcircuitDecorate, hne]
  · intro he
    refine ⟨(portAttrs attrs).enum.map (fun p => (p.2, p.1)), ?_, ?_, ?_⟩
    · simp [pcircuitDecorate, he]
    · simp [he]
    · intro k hk
      simp [List.get?_map, List.get?_enum, Option.map_map]
      rfl

/-- A class body declaring two Port attributes around one non-Port
attribute, used as the concrete witness input. -/
def demoAttrs : List (String × Bool) :=
  [("in1", true), ("w0", false), ("out", true)]

/-- Witness for C8: the demo class body has exactly 2 ports and its
decoration with n_pbits = 2 assigns declaration-order indices. -/
theorem pcircuitDecorate_port_count_witness :
    (portAttrs demoAttrs).length = 2
    ∧ ∃ l, pcircuitDecorate 2 "Gate" demoAttrs = Except.ok l
        ∧ l.length = 2
        ∧ ∀ k, k < 2 →
            l.get? k
              = ((portAttrs demoAttrs).get? k).map (fun nm => (nm, k)) :=
  ⟨rfl, (pcircuitDecorate_port_count 2 "Gate" demoAttrs).2 rfl⟩

/-- An attribute value exposing n_pbits but neither J nor h. -/
def oddAttr : PyAttrVal := ⟨true, false, false⟩

/-- Counterexample to C9 as stated: an instance attribute whose value
exposes n_pbits but lacks both the J and the h capability is
registered anyway — registration does not require the full circuit
capability set claimed. -/
theorem registered_without_J_h :
    registeredOf [("a", oddAttr)] = [oddAttr]
    ∧ oddAttr.hasJ = false ∧ oddAttr.hasH = false :=
  ⟨rfl, rfl, rfl⟩

/-- C9 amended: constructing a module instance registers exactly those
of its instance attributes whose value exposes an n_pbits attribute,
in attribute order; membership is decided by that single capability —
independent of the attribute's name (renaming attributes changes
nothing) — and every registered value exposes n_pbits, but a value
lacking J or h is registered all the same when it has n_pbits. -/
theorem module_registration_by_capability
    (vars : List (String × PyAttrVal)) (rename : String → String) :
    registeredOf vars
        = (vars.map (fun a => a.2)).filter (fun v => v.hasNPbits)
    ∧ registeredOf (vars.map (fun a => (rename a.1, a.2)))
        = registeredOf vars
    ∧ ∀ v ∈ registeredOf vars, v.hasNPbits = true := by
  refine ⟨registeredOf_eq_filter vars, ?_, ?_⟩
  · rw [registeredOf_eq_filter, registeredOf_eq_filter, List.map_map]
    rfl
  · rw [registeredOf_eq_filter]
    intro v hv
    exact (List.mem_filter.mp hv).2

/-- The instance attributes of a demo module holding one circuit-like
value and one value without n_pbits. -/
def demoVars : List (String × PyAttrVal) :=
  [("g", ⟨true, true, true⟩), ("x", ⟨false, true, true⟩)]

/-- Witness for the amended C9 at concrete instance attributes and a
concrete renaming. -/
theorem module_registration_by_capability_witness :
    registeredOf demoVars
        = (demoVars.map (fun a => a.2)).filter (fun v => v.hasNPbits)
    ∧ registeredOf (demoVars.map (fun a => ("r_" ++ a.1, a.2)))
        = registeredOf demoVars
    ∧ ∀ v ∈ registeredOf demoVars, v.hasNPbits = true :=
  module_registration_by_capability demoVars (fun s => "r_" ++ s)

/-- C10: all instances of one @module-decorated class share the single
ModuleContext created at decoration time, so constructing a second
instance appends its registrable attributes to those already
registered by the first; the context read by a subsequent synthesize
call on any of the instances is the concatenation of the registrations
of every instance constructed so far — which, whenever the first
instance registered anything, differs from the second instance's own
registrations alone. -/
theorem module_context_shared_across_instances
    (A B : List (String × PyAttrVal))
    (instances : List (List (String × PyAttrVal))) :
    contextAfter [A, B] = registeredOf A ++ registeredOf B
    ∧ contextAfter instances = (instances.map registeredOf).flatten
    ∧ (registeredOf A ≠ [] → contextAfter [A, B] ≠ registeredOf B) := by
  have hgen : ∀ l, contextAfter l = (l.map registeredOf).flatten := by
    intro l
    rw [contextAfter, contextAfter_fold]
    simp
  have hAB : contextAfter [A, B] = registeredOf A ++ registeredOf B := by
    rw [hgen]
    simp
  refine ⟨hAB, hgen instances, ?_⟩
  intro hne heq
  rw [hAB] at heq
  have hlen := congrArg List.length heq
  simp only [List.length_append] at hlen
  have hzero : (registeredOf A).length = 0 := by omega
  exact hne (List.length_eq_zero.mp hzero)

/-- The instance attributes of a first demo module instance. -/
def demoA : List (String × PyAttrVal) := [("g1", ⟨true, true, true⟩)]

/-- The instance attributes of a second demo module instance. -/
def demoB : List (String × PyAttrVal) := [("g2", ⟨true, true, true⟩)]

/-- Witness for C10: with two concrete instances the shared context
accumulates both registrations and differs from the second instance's
own registrations. -/
theorem module_context_shared_across_instances_witness :
    registeredOf demoA ≠ []
    ∧ contextAfter [demoA, demoB] = registeredOf demoA ++ registeredOf demoB
    ∧ contextAfter [demoA, demoB] ≠ registeredOf demoB := by
  have h := module_context_shared_across_instances demoA demoB [demoA, demoB]
  exact ⟨by decide, h.1, h.2.2 (by decide)⟩

end PKit
